import Mathlib

/-!
# Verification of the PAG2 weather-observation pipeline

Shallow embedding of the analysis core of the repository (the two analysis
scripts `app.py` and `app1.py`): observation loading, astronomical day/night
classification with a per-(station, date) cache, per-station statistics
(mean / median / trimmed mean), spatial aggregation into administrative
units, and the 7-day change series.

Conventions of the embedding:
* floating point `Value` columns are modelled as `ℚ`;
* naive timestamps are modelled as `ℤ` (minutes since an epoch); the calendar
  date of a timestamp is its floor-division by 1440 (`datetime.date()`);
* calendar dates are modelled as `ℤ` (days);
* a `NaN` cell is modelled as `Option.none` (for `KodSH` read from a raw
  file), and a pandas operation that raises is modelled with `Except`;
* the astronomical library (`astral.sun`) is an external collaborator: the
  classifier is parameterised by a function
  `sunF : lat → lon → date → Option (sunrise × sunset)`, `none` standing for
  the computation raising (polar day/night).
-/

/-! ## Basic types -/

abbrev StationCode := String

/-- A calendar date (days). -/
abbrev Date := Int

/-- A naive timestamp (minutes since an epoch). -/
abbrev Instant := Int

/-- Models `datetime.date()`: the calendar date a timestamp falls on. -/
def dateOf (t : Instant) : Date := Int.fdiv t 1440

/-- Association-list lookup (the dictionary / `merge`-by-key accesses of the
scripts, with the first matching entry winning). -/
def alookup {α β : Type} [DecidableEq α] (k : α) : List (α × β) → Option β
  | [] => none
  | (k', v) :: rest => if k = k' then some v else alookup k rest

/-! ## Statistics (`app.py` lines 209–239, `app1.py` lines 146–152)

`trimmed_mean(series, trim)` sorts the values, computes `k = int(n * trim)`
and, unless `2*k >= n` (in which case it falls back to the plain mean),
returns the mean of the slice `ser.iloc[k : n - k]`.  For the default
`trim = 0.1`, `int(n * 0.1) = n // 10` exactly. -/

/-- Arithmetic mean of a list of values (`Series.mean`; the empty case is
never hit by the pipeline, its groups are nonempty). -/
def meanQ (l : List ℚ) : ℚ := l.sum / (l.length : ℚ)

/-- Ascending sort (`Series.sort_values`). -/
def sortQ (l : List ℚ) : List ℚ := l.insertionSort (· ≤ ·)

/-- Models `pandas` median: middle element of the sorted values, or the mean of the
two middle elements when the count is even. -/
def medianQ (l : List ℚ) : ℚ :=
  let s := sortQ l
  let n := s.length
  if n % 2 = 1 then s.getD (n / 2) 0
  else (s.getD (n / 2 - 1) 0 + s.getD (n / 2) 0) / 2

/-- Models `trimmed_mean` of `app.py` (lines 209–218).  `k = int(n * trim)` is
`⌊n * trim⌋` (as a natural number); the `n = 0` case returns NaN in the
source and is modelled by `0` (no claim touches it). -/
def trimmedMean (trim : ℚ) (l : List ℚ) : ℚ :=
  let s := sortQ l
  let n := s.length
  if n = 0 then 0
  else
    let k := (⌊(n : ℚ) * trim⌋).toNat
    if n ≤ 2 * k then meanQ s
    else meanQ ((s.drop k).take (n - 2 * k))

/-- Models `min(values)` of a group. -/
def listMinQ : List ℚ → ℚ
  | [] => 0
  | x :: xs => xs.foldl min x

/-- Models `max(values)` of a group. -/
def listMaxQ : List ℚ → ℚ
  | [] => 0
  | x :: xs => xs.foldl max x

/-! ### Helper lemmas for the trimmed-mean bounds -/

lemma foldl_min_le_init (a : ℚ) (xs : List ℚ) : xs.foldl min a ≤ a := by
  induction xs generalizing a with
  | nil => simp
  | cons x xs ih =>
      calc (x :: xs).foldl min a = xs.foldl min (min a x) := rfl
        _ ≤ min a x := ih _
        _ ≤ a := min_le_left _ _

lemma le_foldl_max_init (a : ℚ) (xs : List ℚ) : a ≤ xs.foldl max a := by
  induction xs generalizing a with
  | nil => simp
  | cons x xs ih =>
      calc a ≤ max a x := le_max_left _ _
        _ ≤ xs.foldl max (max a x) := ih _
        _ = (x :: xs).foldl max a := rfl

lemma foldl_min_le_mem : ∀ (xs : List ℚ) (a x : ℚ), x ∈ xs → xs.foldl min a ≤ x := by
  intro xs
  induction xs with
  | nil => intro a x hx; cases hx
  | cons y ys ih =>
      intro a x hx
      rcases List.mem_cons.mp hx with h | h
      · subst h
        calc (x :: ys).foldl min a = ys.foldl min (min a x) := rfl
          _ ≤ min a x := foldl_min_le_init _ _
          _ ≤ x := min_le_right _ _
      · exact ih (min a y) x h

lemma mem_le_foldl_max : ∀ (xs : List ℚ) (a x : ℚ), x ∈ xs → x ≤ xs.foldl max a := by
  intro xs
  induction xs with
  | nil => intro a x hx; cases hx
  | cons y ys ih =>
      intro a x hx
      rcases List.mem_cons.mp hx with h | h
      · subst h
        calc x ≤ max a x := le_max_right _ _
          _ ≤ ys.foldl max (max a x) := le_foldl_max_init _ _
          _ = (x :: ys).foldl max a := rfl
      · exact ih (max a y) x h

lemma listMinQ_le_mem (l : List ℚ) (x : ℚ) (hx : x ∈ l) : listMinQ l ≤ x := by
  cases l with
  | nil => cases hx
  | cons a xs =>
      rcases List.mem_cons.mp hx with h | h
      · subst h; exact foldl_min_le_init _ _
      · exact foldl_min_le_mem xs a x h

lemma mem_le_listMaxQ (l : List ℚ) (x : ℚ) (hx : x ∈ l) : x ≤ listMaxQ l := by
  cases l with
  | nil => cases hx
  | cons a xs =>
      rcases List.mem_cons.mp hx with h | h
      · subst h; exact le_foldl_max_init _ _
      · exact mem_le_foldl_max xs a x h

lemma mul_length_le_sum (l : List ℚ) (a : ℚ) (h : ∀ x ∈ l, a ≤ x) :
    a * (l.length : ℚ) ≤ l.sum := by
  induction l with
  | nil => simp
  | cons x xs ih =>
      have hx := h x (List.mem_cons_self _ _)
      have hxs := ih (fun y hy => h y (List.mem_cons.mpr (Or.inr hy)))
      simp only [List.sum_cons, List.length_cons]
      push_cast
      nlinarith

lemma sum_le_mul_length (l : List ℚ) (b : ℚ) (h : ∀ x ∈ l, x ≤ b) :
    l.sum ≤ b * (l.length : ℚ) := by
  induction l with
  | nil => simp
  | cons x xs ih =>
      have hx := h x (List.mem_cons_self _ _)
      have hxs := ih (fun y hy => h y (List.mem_cons.mpr (Or.inr hy)))
      simp only [List.sum_cons, List.length_cons]
      push_cast
      nlinarith

/-- The mean of a nonempty list is at least any common lower bound of its
elements. -/
lemma le_meanQ_of_forall_le (l : List ℚ) (a : ℚ) (hne : l ≠ [])
    (h : ∀ x ∈ l, a ≤ x) : a ≤ meanQ l := by
  have hlen : 0 < (l.length : ℚ) := by
    have : 0 < l.length := List.length_pos.mpr hne
    exact_mod_cast this
  rw [meanQ, le_div_iff₀ hlen]
  exact mul_length_le_sum l a h

/-- The mean of a nonempty list is at most any common upper bound of its
elements. -/
lemma meanQ_le_of_forall_le (l : List ℚ) (b : ℚ) (hne : l ≠ [])
    (h : ∀ x ∈ l, x ≤ b) : meanQ l ≤ b := by
  have hlen : 0 < (l.length : ℚ) := by
    have : 0 < l.length := List.length_pos.mpr hne
    exact_mod_cast this
  rw [meanQ, div_le_iff₀ hlen]
  exact sum_le_mul_length l b h

lemma meanQ_perm {l l' : List ℚ} (h : l.Perm l') : meanQ l = meanQ l' := by
  unfold meanQ
  rw [h.sum_eq, h.length_eq]

lemma sortQ_perm (l : List ℚ) : (sortQ l).Perm l :=
  List.perm_insertionSort _ l

lemma sortQ_ne_nil {l : List ℚ} (hne : l ≠ []) : sortQ l ≠ [] := by
  intro h
  have hlen := (sortQ_perm l).length_eq
  rw [h] at hlen
  exact hne (List.length_eq_zero.mp hlen.symm)

/-- Claim C4, counterexample to the second half as stated: the group
`[0,0,0,0,0,0,0,0,0,100]` has `count = 10 ≤ 2 / 0.1 = 20`, yet the code's
trimmed mean (which trims `int(10 * 0.1) = 1` value from each end) is `0`
while the untrimmed mean is `10`. -/
theorem claim4_counterexample :
    ((10 : ℚ) ≤ 2 / (1 / 10 : ℚ)) ∧
    ([(0 : ℚ), 0, 0, 0, 0, 0, 0, 0, 0, 100].length = 10) ∧
    trimmedMean (1 / 10) [(0 : ℚ), 0, 0, 0, 0, 0, 0, 0, 0, 100] = 0 ∧
    meanQ [(0 : ℚ), 0, 0, 0, 0, 0, 0, 0, 0, 100] = 10 ∧
    ((0 : ℚ) ≠ 10) := by
  refine ⟨by norm_num, by decide,
    by norm_num [trimmedMean, sortQ, meanQ, List.insertionSort, List.orderedInsert],
    by norm_num [meanQ], by norm_num⟩

/-- Claim C4 (amended): for any group with `count ≥ 1`,
`min(values) ≤ trimmed_mean ≤ max(values)`; and the trimmed mean equals the
untrimmed mean exactly whenever `count * trim_fraction < 1`
(`count ≤ 9` at the default `trim_fraction = 0.10`), since then
`k = int(count * trim)` is `0` and nothing is trimmed. -/
theorem claim4_trimmed_mean_props (trim : ℚ) (l : List ℚ) (hne : l ≠ []) :
    (listMinQ l ≤ trimmedMean trim l ∧ trimmedMean trim l ≤ listMaxQ l) ∧
    ((l.length : ℚ) * trim < 1 → trimmedMean trim l = meanQ l) := by
  have hperm : (sortQ l).Perm l := sortQ_perm l
  have hlen : (sortQ l).length = l.length := hperm.length_eq
  have hs_ne : sortQ l ≠ [] := sortQ_ne_nil hne
  have hn_ne : (sortQ l).length ≠ 0 := fun h => hs_ne (List.length_eq_zero.mp h)
  constructor
  · -- the bound: every branch returns a mean over a nonempty sub-collection
    -- of the values
    simp only [trimmedMean, if_neg hn_ne]
    split_ifs with hfall
    · constructor
      · exact le_meanQ_of_forall_le _ _ hs_ne
          (fun x hx => listMinQ_le_mem l x (hperm.mem_iff.mp hx))
      · exact meanQ_le_of_forall_le _ _ hs_ne
          (fun x hx => mem_le_listMaxQ l x (hperm.mem_iff.mp hx))
    · set k := (⌊((sortQ l).length : ℚ) * trim⌋).toNat with hk
      have h2k : 2 * k < (sortQ l).length := by omega
      have hslice_len :
          (((sortQ l).drop k).take ((sortQ l).length - 2 * k)).length
            = (sortQ l).length - 2 * k := by
        rw [List.length_take, List.length_drop]
        omega
      have hslice_ne :
          ((sortQ l).drop k).take ((sortQ l).length - 2 * k) ≠ [] := by
        intro h
        rw [h] at hslice_len
        simp at hslice_len
        omega
      have hmem : ∀ x ∈ ((sortQ l).drop k).take ((sortQ l).length - 2 * k),
          x ∈ l := fun x hx =>
        hperm.mem_iff.mp (List.mem_of_mem_drop (List.mem_of_mem_take hx))
      constructor
      · exact le_meanQ_of_forall_le _ _ hslice_ne
          (fun x hx => listMinQ_le_mem l x (hmem x hx))
      · exact meanQ_le_of_forall_le _ _ hslice_ne
          (fun x hx => mem_le_listMaxQ l x (hmem x hx))
  · -- the equality: count * trim < 1 forces k = 0, so the slice is the whole
    -- sorted list
    intro hsmall
    have hfloor : ⌊((sortQ l).length : ℚ) * trim⌋ < 1 := by
      rw [hlen]
      exact Int.floor_lt.mpr (by exact_mod_cast hsmall)
    have hk0 : (⌊((sortQ l).length : ℚ) * trim⌋).toNat = 0 :=
      Int.toNat_of_nonpos (by omega)
    simp only [trimmedMean, if_neg hn_ne, hk0, Nat.mul_zero, Nat.sub_zero,
      List.drop_zero, List.take_length]
    rw [if_neg (by omega)]
    exact meanQ_perm hperm

/-! ## Day/Night classifier of `app.py` (`compute_day_night`, lines 113–206)

The function maps each station code to a coordinate (`loc_map`), adds a
`date` column, groups the observations by `(KodSH, date)` (pandas drops the
rows whose `KodSH` is NaN here), and labels each group: an unknown station or
a raised solar computation gives `'unknown'`; otherwise each row of the group
is `'day'` iff `sunrise <= dt <= sunset`, else `'night'`.  A per-key cache
dictionary is consulted first (its hit branch is unreachable in a single call
because `groupby` yields each key once).  `df_out` is the concatenation of
the labelled groups, or the bare input (without a `daynight` column,
modelled by `Period.null`) when there were no groups at all. -/

inductive Period
  | day
  | night
  | unknown
  /-- models both the `None` stored in `daynight_cache` for a successfully
  computed group (line 198) and the absent `daynight` column on the
  no-groups fallback path (line 205). -/
  | null
deriving DecidableEq, Repr

/-- An observation row as produced by `read_parameter_csvs` of `app.py`
(`KodSH`, `datetime`, `Value`); `KodSH` may be NaN (`none`). -/
structure ObsA where
  kod : Option StationCode
  dt : Instant
  value : ℚ
deriving DecidableEq, Repr

/-- An output row of `compute_day_night`: the observation plus the `date`
and `daynight` columns. -/
structure RowDN where
  kod : Option StationCode
  dt : Instant
  value : ℚ
  date : Date
  daynight : Period
deriving DecidableEq, Repr

/-- The astronomical collaborator `astral.sun.sun`: latitude, longitude and
date to the (sunrise, sunset) pair; `none` models the call raising
(polar day / polar night). -/
abbrev SunF := ℚ → ℚ → Date → Option (Instant × Instant)

/-- Models `loc_map`: station code to `(lat, lon)` (`app.py` line 136). -/
abbrev LocMap := List (StationCode × (ℚ × ℚ))

/-- The `(KodSH, date)` group key of an observation; `none` when `KodSH` is
NaN (such rows are dropped by `groupby`). -/
def obsKey (o : ObsA) : Option (StationCode × Date) :=
  o.kod.map (fun k => (k, dateOf o.dt))

/-- The distinct group keys of `df.groupby(['KodSH','date'])` (pandas sorts
them; their order is irrelevant to every property below). -/
def groupKeys (l : List ObsA) : List (StationCode × Date) :=
  (l.filterMap obsKey).dedup

/-- The rows of the group with key `k`. -/
def groupOf (l : List ObsA) (k : StationCode × Date) : List ObsA :=
  l.filter (fun o => obsKey o = some k)

def mkRowDN (o : ObsA) (p : Period) : RowDN :=
  ⟨o.kod, o.dt, o.value, dateOf o.dt, p⟩

/-- The label `compute_day_night` gives a row of group `k`, written as a
pure function of the group key and the row (the branch structure of lines
180–204). -/
def groupPeriod (sunF : SunF) (locMap : LocMap) (k : StationCode × Date)
    (o : ObsA) : Period :=
  match alookup k.1 locMap with
  | none => .unknown
  | some (lat, lon) =>
    match sunF lat lon k.2 with
    | none => .unknown
    | some (sr, ss) => if sr ≤ o.dt ∧ o.dt ≤ ss then .day else .night

/-- Whether processing key `k` invokes the astral `sun` computation
(`app.py` line 191): only when the station resolves, and the invocation
raises or returns. -/
def sunInvoked (sunF : SunF) (locMap : LocMap) (k : StationCode × Date) : Bool :=
  match alookup k.1 locMap with
  | none => false
  | some (_, _) => true

/-- The group loop of `compute_day_night` (lines 171–204): iterates over the
group keys threading `daynight_cache`, returning the concatenated labelled
rows together with the list of keys at which the astral `sun` computation
was invoked. -/
def cdnGo (sunF : SunF) (locMap : LocMap) (l : List ObsA) :
    List (StationCode × Date) → List ((StationCode × Date) × Period) →
    List RowDN × List (StationCode × Date)
  | [], _ => ([], [])
  | k :: ks, cache =>
    match alookup k cache with
    | some val =>
        let rest := cdnGo sunF locMap l ks cache
        ((groupOf l k).map (fun o => mkRowDN o val) ++ rest.1, rest.2)
    | none =>
      match alookup k.1 locMap with
      | none =>
          let rest := cdnGo sunF locMap l ks ((k, Period.unknown) :: cache)
          ((groupOf l k).map (fun o => mkRowDN o Period.unknown) ++ rest.1,
           rest.2)
      | some (lat, lon) =>
        match sunF lat lon k.2 with
        | some (sr, ss) =>
            let rest := cdnGo sunF locMap l ks ((k, Period.null) :: cache)
            ((groupOf l k).map (fun o =>
                mkRowDN o (if sr ≤ o.dt ∧ o.dt ≤ ss then Period.day
                  else Period.night)) ++ rest.1,
             k :: rest.2)
        | none =>
            let rest := cdnGo sunF locMap l ks ((k, Period.unknown) :: cache)
            ((groupOf l k).map (fun o => mkRowDN o Period.unknown) ++ rest.1,
             k :: rest.2)

/-- Models `compute_day_night` of `app.py`. -/
def computeDayNight (sunF : SunF) (locMap : LocMap) (l : List ObsA) :
    List RowDN :=
  if groupKeys l = [] then l.map (fun o => mkRowDN o Period.null)
  else (cdnGo sunF locMap l (groupKeys l) []).1

/-- The keys at which a run of `compute_day_night` invoked the astral
computation. -/
def cdnLog (sunF : SunF) (locMap : LocMap) (l : List ObsA) :
    List (StationCode × Date) :=
  (cdnGo sunF locMap l (groupKeys l) []).2

/-- With pairwise-distinct keys none of which is cached, the cache-hit
branch of the group loop is unreachable and the loop reduces to an
independent labelling of each group. -/
lemma cdnGo_no_cache (sunF : SunF) (locMap : LocMap) (l : List ObsA) :
    ∀ (ks : List (StationCode × Date))
      (cache : List ((StationCode × Date) × Period)),
      ks.Nodup → (∀ k ∈ ks, alookup k cache = none) →
      cdnGo sunF locMap l ks cache =
        (ks.flatMap (fun k =>
            (groupOf l k).map (fun o => mkRowDN o (groupPeriod sunF locMap k o))),
         ks.filter (sunInvoked sunF locMap)) := by
  intro ks
  induction ks with
  | nil => intro cache _ _; rfl
  | cons k ks ih =>
      intro cache hnd hc
      have hk : alookup k cache = none := hc k (List.mem_cons_self _ _)
      have hnd' : ks.Nodup := (List.nodup_cons.mp hnd).2
      have hkk : k ∉ ks := (List.nodup_cons.mp hnd).1
      have hc' : ∀ (p : Period) (k' : StationCode × Date), k' ∈ ks →
          alookup k' ((k, p) :: cache) = none := by
        intro p k' hk'
        have hne : k' ≠ k := fun h => hkk (h ▸ hk')
        simp only [alookup, if_neg hne]
        exact hc k' (List.mem_cons.mpr (Or.inr hk'))
      simp only [cdnGo, hk]
      cases hloc : alookup k.1 locMap with
      | none =>
          rw [ih ((k, Period.unknown) :: cache) hnd' (hc' _)]
          simp [List.flatMap_cons, groupPeriod, sunInvoked, hloc]
      | some latlon =>
          obtain ⟨lat, lon⟩ := latlon
          cases hsun : sunF lat lon k.2 with
          | none =>
              rw [ih ((k, Period.unknown) :: cache) hnd' (hc' _)]
              simp [List.flatMap_cons, groupPeriod, sunInvoked, hloc, hsun]
          | some srss =>
              obtain ⟨sr, ss⟩ := srss
              rw [ih ((k, Period.null) :: cache) hnd' (hc' _)]
              simp [List.flatMap_cons, groupPeriod, sunInvoked, hloc, hsun]

/-- Reduced form of `compute_day_night`: each group labelled independently. -/
lemma computeDayNight_eq (sunF : SunF) (locMap : LocMap) (l : List ObsA)
    (hne : groupKeys l ≠ []) :
    computeDayNight sunF locMap l =
      (groupKeys l).flatMap (fun k =>
        (groupOf l k).map (fun o => mkRowDN o (groupPeriod sunF locMap k o))) := by
  rw [computeDayNight, if_neg hne,
    cdnGo_no_cache sunF locMap l (groupKeys l) [] (List.nodup_dedup _)
      (fun _ _ => rfl)]

/-- The invocation log, reduced. -/
lemma cdnLog_eq (sunF : SunF) (locMap : LocMap) (l : List ObsA) :
    cdnLog sunF locMap l = (groupKeys l).filter (sunInvoked sunF locMap) := by
  rw [cdnLog,
    cdnGo_no_cache sunF locMap l (groupKeys l) [] (List.nodup_dedup _)
      (fun _ _ => rfl)]

/-! ### Structural facts about `compute_day_night` -/

lemma mem_groupOf {l : List ObsA} {k : StationCode × Date} {o : ObsA} :
    o ∈ groupOf l k ↔ o ∈ l ∧ obsKey o = some k := by
  simp [groupOf, List.mem_filter]

lemma obsKey_some {o : ObsA} {k : StationCode × Date}
    (h : obsKey o = some k) : o.kod = some k.1 ∧ dateOf o.dt = k.2 := by
  cases hk : o.kod with
  | none => rw [obsKey, hk] at h; cases h
  | some c =>
      rw [obsKey, hk] at h
      simp only [Option.map_some'] at h
      injection h with h
      rw [← h]
      exact ⟨rfl, rfl⟩

lemma groupKeys_eq_nil_iff (l : List ObsA) :
    groupKeys l = [] ↔ ∀ o ∈ l, o.kod = none := by
  rw [groupKeys, List.dedup_eq_nil, List.filterMap_eq_nil]
  constructor
  · intro h o ho
    have := h o ho
    rw [obsKey] at this
    cases hk : o.kod with
    | none => rfl
    | some c => rw [hk] at this; cases this
  · intro h o ho
    rw [obsKey, h o ho]
    rfl

lemma mem_groupKeys_of_key {l : List ObsA} {o : ObsA} {k : StationCode × Date}
    (ho : o ∈ l) (hk : obsKey o = some k) : k ∈ groupKeys l :=
  List.mem_dedup.mpr (List.mem_filterMap.mpr ⟨o, ho, hk⟩)

/-- Every row of a `compute_day_night` result whose `KodSH` is non-null
came from its own group, labelled by `groupPeriod`. -/
lemma mem_computeDayNight {sunF : SunF} {locMap : LocMap} {l : List ObsA}
    {r : RowDN} (hr : r ∈ computeDayNight sunF locMap l) (k : StationCode)
    (hkod : r.kod = some k) :
    ∃ o ∈ l, obsKey o = some (k, dateOf o.dt) ∧ dateOf o.dt = r.date ∧
      r = mkRowDN o (groupPeriod sunF locMap (k, dateOf o.dt) o) := by
  by_cases h0 : groupKeys l = []
  · rw [computeDayNight, if_pos h0] at hr
    obtain ⟨o, ho, rfl⟩ := List.mem_map.mp hr
    have := (groupKeys_eq_nil_iff l).mp h0 o ho
    rw [mkRowDN] at hkod
    simp only at hkod
    rw [this] at hkod
    cases hkod
  · rw [computeDayNight_eq sunF locMap l h0] at hr
    obtain ⟨k', _, hin⟩ := List.mem_flatMap.mp hr
    obtain ⟨o, hog, rfl⟩ := List.mem_map.mp hin
    obtain ⟨ho, hko⟩ := mem_groupOf.mp hog
    obtain ⟨hkod', hdate⟩ := obsKey_some hko
    have hkk : o.kod = some k := hkod
    have hk1 : k'.1 = k := by
      rw [hkod'] at hkk
      injection hkk
    have hk' : k' = (k, dateOf o.dt) := by
      cases k' with
      | mk a b => simp only at hk1 hdate; rw [hk1] at *; rw [← hdate]
    subst hk'
    exact ⟨o, ho, hko, rfl, rfl⟩

/-- The "station unresolvable" condition for `compute_day_night`: the code
is absent from `loc_map`, or `astral.sun` raises for its coordinate and the
date. -/
def unresolvableA (sunF : SunF) (locMap : LocMap) (k : StationCode)
    (d : Date) : Prop :=
  match alookup k locMap with
  | none => True
  | some (lat, lon) => sunF lat lon d = none

/-- Row labels of `app.py`: an unresolvable station gives `'unknown'`. -/
lemma cdn_unresolvable_unknown (sunF : SunF) (locMap : LocMap) (l : List ObsA)
    (r : RowDN) (hr : r ∈ computeDayNight sunF locMap l) (k : StationCode)
    (hkod : r.kod = some k) (hunres : unresolvableA sunF locMap k r.date) :
    r.daynight = Period.unknown := by
  obtain ⟨o, ho, hko, hdate, rfl⟩ := mem_computeDayNight hr k hkod
  rw [unresolvableA] at hunres
  show groupPeriod sunF locMap (k, dateOf o.dt) o = Period.unknown
  rw [groupPeriod]
  cases hloc : alookup k locMap with
  | none => rfl
  | some latlon =>
      obtain ⟨lat, lon⟩ := latlon
      rw [hloc] at hunres
      have hdd : dateOf o.dt = (mkRowDN o (groupPeriod sunF locMap (k, dateOf o.dt) o)).date := rfl
      rw [← hdd] at hunres
      simp only at hunres ⊢
      rw [hunres]

/-! ### Claim C7: inclusive day window -/

/-- Inclusive-window labelling in `app.py`: whenever the station of an
output row resolves to a coordinate and the astral computation returns a
(sunrise, sunset) window for the row's date, the row is `'day'` exactly
when `sunrise ≤ timestamp ≤ sunset` (both endpoints inclusive) and
`'night'` otherwise. -/
lemma cdn_day_iff_window (sunF : SunF) (locMap : LocMap) (l : List ObsA)
    (r : RowDN) (k : StationCode) (lat lon : ℚ) (sr ss : Instant)
    (hr : r ∈ computeDayNight sunF locMap l) (hkod : r.kod = some k)
    (hloc : alookup k locMap = some (lat, lon))
    (hsun : sunF lat lon r.date = some (sr, ss)) :
    (r.daynight = Period.day ↔ (sr ≤ r.dt ∧ r.dt ≤ ss)) ∧
    (r.daynight = Period.night ↔ ¬(sr ≤ r.dt ∧ r.dt ≤ ss)) := by
  obtain ⟨o, ho, hko, hdate, rfl⟩ := mem_computeDayNight hr k hkod
  have hdt : (mkRowDN o (groupPeriod sunF locMap (k, dateOf o.dt) o)).dt = o.dt := rfl
  have hdate' : (mkRowDN o (groupPeriod sunF locMap (k, dateOf o.dt) o)).date
      = dateOf o.dt := rfl
  rw [hdate'] at hsun
  have hp : (mkRowDN o (groupPeriod sunF locMap (k, dateOf o.dt) o)).daynight
      = groupPeriod sunF locMap (k, dateOf o.dt) o := rfl
  rw [hp, hdt, groupPeriod]
  simp only [hloc, hsun]
  by_cases hcond : sr ≤ o.dt ∧ o.dt ≤ ss
  · rw [if_pos hcond]
    exact ⟨⟨fun _ => hcond, fun _ => rfl⟩,
      ⟨fun h => absurd h (by simp), fun h => absurd hcond h⟩⟩
  · rw [if_neg hcond]
    exact ⟨⟨fun h => absurd h (by simp), fun h => absurd h hcond⟩,
      ⟨fun _ => hcond, fun _ => rfl⟩⟩

/-! ### Claim C10: the grouping neither drops nor duplicates (non-null)
observations -/

/-- The `(station_id, timestamp, value)` triple of an input observation. -/
def obsTriple (o : ObsA) : Option StationCode × Instant × ℚ :=
  (o.kod, o.dt, o.value)

/-- The `(station_id, timestamp, value)` triple of an output row. -/
def rowTriple (r : RowDN) : Option StationCode × Instant × ℚ :=
  (r.kod, r.dt, r.value)

lemma flatMap_congr_of_mem {α β : Type} {l : List α} {f g : α → List β}
    (h : ∀ a ∈ l, f a = g a) : l.flatMap f = l.flatMap g := by
  induction l with
  | nil => rfl
  | cons a l ih =>
      rw [List.flatMap_cons, List.flatMap_cons, h a (List.mem_cons_self _ _),
        ih (fun b hb => h b (List.mem_cons.mpr (Or.inr hb)))]

/-- Concatenating the groups of pairwise-distinct keys that cover every row
is a permutation of the rows. -/
lemma flatMap_groupOf_perm :
    ∀ (ks : List (StationCode × Date)) (l : List ObsA), ks.Nodup →
      (∀ o ∈ l, ∃ k, obsKey o = some k ∧ k ∈ ks) →
      (ks.flatMap (fun k => groupOf l k)).Perm l := by
  intro ks
  induction ks with
  | nil =>
      intro l _ hcov
      cases l with
      | nil => exact List.Perm.refl _
      | cons o l =>
          obtain ⟨k, _, hk⟩ := hcov o (List.mem_cons_self _ _)
          cases hk
  | cons k ks ih =>
      intro l hnd hcov
      have hkk : k ∉ ks := (List.nodup_cons.mp hnd).1
      have hnd' : ks.Nodup := (List.nodup_cons.mp hnd).2
      -- the rows not in group `k`
      set l' := l.filter (fun o => !(decide (obsKey o = some k))) with hl'
      have hgroups : ∀ k' ∈ ks, groupOf l k' = groupOf l' k' := by
        intro k' hk'
        have hne : k' ≠ k := fun h => hkk (h ▸ hk')
        rw [hl', groupOf, groupOf, List.filter_filter]
        refine (List.filter_congr ?_).symm
        intro o _
        cases hko : decide (obsKey o = some k') with
        | false => simp
        | true =>
            have : obsKey o = some k' := of_decide_eq_true hko
            have : ¬(obsKey o = some k) := by
              rw [this]
              intro hcon
              injection hcon with hcon
              exact hne hcon
            simp [this]
      have hcov' : ∀ o ∈ l', ∃ k', obsKey o = some k' ∧ k' ∈ ks := by
        intro o ho
        obtain ⟨homem, hob⟩ := List.mem_filter.mp ho
        obtain ⟨k', hk', hkin⟩ := hcov o homem
        rcases List.mem_cons.mp hkin with h | h
        · exfalso
          rw [h] at hk'
          simp only [Bool.not_eq_true'] at hob
          rw [decide_eq_false_iff_not] at hob
          exact hob hk'
        · exact ⟨k', hk', h⟩
      have h1 : (k :: ks).flatMap (fun k => groupOf l k)
          = groupOf l k ++ ks.flatMap (fun k => groupOf l' k) := by
        rw [List.flatMap_cons, flatMap_congr_of_mem hgroups]
      rw [h1]
      refine List.Perm.trans (List.Perm.append_left _ (ih l' hnd' hcov')) ?_
      rw [groupOf, hl']
      exact List.filter_append_perm _ l

/-- Row preservation in `app.py`: provided every observation's station id
is non-null, `compute_day_night` emits exactly one row per input
observation — the multiset of `(station_id, timestamp, value)` triples is
preserved by the grouping and concatenation. -/
lemma cdn_row_preservation (sunF : SunF) (locMap : LocMap)
    (l : List ObsA) (hk : ∀ o ∈ l, o.kod.isSome) :
    ((computeDayNight sunF locMap l).map rowTriple).Perm (l.map obsTriple) := by
  by_cases h0 : groupKeys l = []
  · have : l = [] := by
      cases l with
      | nil => rfl
      | cons o l =>
          have h1 := (groupKeys_eq_nil_iff _).mp h0 o (List.mem_cons_self _ _)
          have h2 := hk o (List.mem_cons_self _ _)
          rw [h1] at h2
          cases h2
    subst this
    exact List.Perm.refl _
  · rw [computeDayNight_eq sunF locMap l h0, List.map_flatMap]
    have hinner : ∀ k ∈ groupKeys l,
        (List.map rowTriple
          ((groupOf l k).map (fun o => mkRowDN o (groupPeriod sunF locMap k o))))
          = (groupOf l k).map obsTriple := by
      intro k _
      rw [List.map_map]
      rfl
    rw [flatMap_congr_of_mem hinner, ← List.map_flatMap]
    refine List.Perm.map obsTriple ?_
    refine flatMap_groupOf_perm (groupKeys l) l (List.nodup_dedup _) ?_
    intro o ho
    cases hko : o.kod with
    | none =>
        have := hk o ho
        rw [hko] at this
        cases this
    | some c =>
        refine ⟨(c, dateOf o.dt), ?_, ?_⟩
        · rw [obsKey, hko]; rfl
        · exact mem_groupKeys_of_key ho (by rw [obsKey, hko]; rfl)

/-- Concrete data for the C10 counterexample: a resolvable station `A` and a
second observation whose `KodSH` is NaN. -/
def sunFX : SunF := fun _ _ _ => some (360, 1080)

def locMapX : LocMap := [("A", (50, 20))]

def obsX : List ObsA := [⟨some "A", 720, 1⟩, ⟨none, 720, 2⟩]

/-- Claim C10, counterexample as stated: the station reference `locMapX`
has pairwise-distinct codes, yet `compute_day_night` returns one row for the
two input observations — `groupby(['KodSH','date'])` silently drops the row
whose `KodSH` is NaN, so the output triples are not a permutation of the
input triples. -/
theorem claim10_counterexample :
    obsX.length = 2 ∧
    (computeDayNight sunFX locMapX obsX).length = 1 ∧
    ¬ ((computeDayNight sunFX locMapX obsX).map rowTriple).Perm
        (obsX.map obsTriple) := by
  refine ⟨rfl, by decide, by decide⟩

/-! ## Day/Night classifier of `app1.py` (`add_day_night_astral`,
lines 101–142)

The function left-merges the observations with the station geometries,
localizes the timestamps (`tz.localize` shifts observation and sun instants
alike, so it is dropped from the model), and walks the rows: `get_sun`
consults a `(KodSH, date)`-keyed cache, caches the `(None, None)` sentinel
for a missing/empty geometry, and otherwise invokes `astral.sun` — whose
raising (it is not caught here) aborts the whole call.  A sentinel window
yields the period `"noc"`; otherwise `"dzien"` iff
`sunrise ≤ dt ≤ sunset`, else `"noc"`. -/

/-- An observation row of `app1.py`'s loader (`KodSH` non-null — its
`df.dropna()` removed NaN rows). -/
structure ObsB where
  kod : StationCode
  dt : Instant
  value : ℚ
deriving DecidableEq, Repr

/-- An output row of `add_day_night_astral`. -/
structure RowB where
  kod : StationCode
  dt : Instant
  value : ℚ
  period : String
deriving DecidableEq, Repr

/-- The station reference of `app1.py` after `to_crs(4326)`: code to point;
an entry `none` models a row whose geometry is missing or empty. -/
abbrev EffMap := List (StationCode × Option (ℚ × ℚ))

/-- The geometry seen for a station after the left merge (line 106): `none`
both for a code absent from `eff` and for a missing/empty geometry (the
`geom is None or geom.is_empty` test on line 120 treats them alike).
The point is `(x, y) = (longitude, latitude)`. -/
def mergedGeom (eff : EffMap) (k : StationCode) : Option (ℚ × ℚ) :=
  match alookup k eff with
  | none => none
  | some g => g

/-- The `(KodSH, date)`-keyed cache of `get_sun`; a `none` window is the
`(None, None)` sentinel cached for a missing geometry. -/
abbrev SunCache := List ((StationCode × Date) × Option (Instant × Instant))

/-- Models `get_sun` (`app1.py` lines 114–128).  The returned `Bool` records
whether `astral.sun` was invoked; its raising is `Except.error`. -/
def getSun (sunF : SunF) (cache : SunCache) (k : StationCode)
    (g : Option (ℚ × ℚ)) (d : Date) :
    Except Unit (Option (Instant × Instant) × SunCache × Bool) :=
  match alookup (k, d) cache with
  | some w => .ok (w, cache, false)
  | none =>
    match g with
    | none => .ok (none, ((k, d), none) :: cache, false)
    | some (x, y) =>
      match sunF y x d with
      | none => .error ()
      | some w => .ok (some w, ((k, d), some w) :: cache, true)

/-- The row loop of `add_day_night_astral` (lines 130–141), threading the
cache and accumulating the keys at which `astral.sun` was invoked. -/
def adnGo (sunF : SunF) (eff : EffMap) :
    List ObsB → SunCache →
    Except Unit (List RowB × SunCache × List (StationCode × Date))
  | [], c => .ok ([], c, [])
  | o :: os, c =>
    match getSun sunF c o.kod (mergedGeom eff o.kod) (dateOf o.dt) with
    | .error _ => .error ()
    | .ok (w, c', inv) =>
      match adnGo sunF eff os c' with
      | .error _ => .error ()
      | .ok (rows, c'', log) =>
        let p : String :=
          match w with
          | none => "noc"
          | some (sr, ss) => if sr ≤ o.dt ∧ o.dt ≤ ss then "dzien" else "noc"
        .ok (⟨o.kod, o.dt, o.value, p⟩ :: rows, c'',
          if inv then (o.kod, dateOf o.dt) :: log else log)

/-- Models `add_day_night_astral` of `app1.py` (the cache starts empty each call). -/
def addDayNightAstral (sunF : SunF) (eff : EffMap) (obs : List ObsB) :
    Except Unit (List RowB × SunCache × List (StationCode × Date)) :=
  adnGo sunF eff obs []

/-- The "fresh" resolver result for a key: what the cache-miss path of
`get_sun` computes for `(k, d)` from scratch. -/
def resolveWin (sunF : SunF) (eff : EffMap) (k : StationCode) (d : Date) :
    Except Unit (Option (Instant × Instant)) :=
  match mergedGeom eff k with
  | none => .ok none
  | some (x, y) =>
    match sunF y x d with
    | none => .error ()
    | some w => .ok (some w)

/-- Every entry of a cache agrees with the fresh computation for its key. -/
def cacheGood (sunF : SunF) (eff : EffMap) (c : SunCache) : Prop :=
  ∀ k d w, alookup (k, d) c = some w → resolveWin sunF eff k d = .ok w

/-- Classification of a single row against the fresh (uncached) resolver. -/
def classifyRow (sunF : SunF) (eff : EffMap) (o : ObsB) : Except Unit RowB :=
  match resolveWin sunF eff o.kod (dateOf o.dt) with
  | .error _ => .error ()
  | .ok none => .ok ⟨o.kod, o.dt, o.value, "noc"⟩
  | .ok (some (sr, ss)) =>
      .ok ⟨o.kod, o.dt, o.value,
        if sr ≤ o.dt ∧ o.dt ≤ ss then "dzien" else "noc"⟩

/-- Row-by-row classification against the fresh resolver. -/
def classifyRows (sunF : SunF) (eff : EffMap) :
    List ObsB → Except Unit (List RowB)
  | [] => .ok []
  | o :: os =>
    match classifyRow sunF eff o, classifyRows sunF eff os with
    | .ok r, .ok rs => .ok (r :: rs)
    | _, _ => .error ()

lemma alookup_cons_none {α β : Type} [DecidableEq α] {k : α} {e : α × β}
    {l : List (α × β)} (h : alookup k (e :: l) = none) : alookup k l = none := by
  obtain ⟨k', v⟩ := e
  by_cases hk : k = k'
  · rw [alookup, if_pos hk] at h; cases h
  · rw [alookup, if_neg hk] at h; exact h

lemma cacheGood_cons (sunF : SunF) (eff : EffMap) {c : SunCache}
    (hc : cacheGood sunF eff c) (k : StationCode) (d : Date)
    (w : Option (Instant × Instant))
    (hw : resolveWin sunF eff k d = .ok w) :
    cacheGood sunF eff (((k, d), w) :: c) := by
  intro k' d' w' hl
  simp only [alookup] at hl
  by_cases hk : (k', d') = (k, d)
  · rw [if_pos hk] at hl
    injection hl with hl
    injection hk with hk1 hk2
    subst hk1; subst hk2; subst hl
    exact hw
  · rw [if_neg hk] at hl
    exact hc _ _ _ hl

/-- The main invariant of the `app1.py` classifier run: starting from a
cache whose entries agree with the fresh resolver, every reachable cache
also agrees; the invocation log only holds keys that were uncached at entry
and is duplicate-free; and the produced rows are exactly the fresh
(uncached) row-by-row classification. -/
lemma adnGo_invariant (sunF : SunF) (eff : EffMap) :
    ∀ (os : List ObsB) (c : SunCache) (rows : List RowB) (c' : SunCache)
      (log : List (StationCode × Date)),
      adnGo sunF eff os c = .ok (rows, c', log) → cacheGood sunF eff c →
      cacheGood sunF eff c' ∧ (∀ k ∈ log, alookup k c = none) ∧
        log.Nodup ∧ classifyRows sunF eff os = .ok rows := by
  intro os
  induction os with
  | nil =>
      intro c rows c' log h hc
      simp only [adnGo, Except.ok.injEq, Prod.mk.injEq] at h
      obtain ⟨h1, h2, h3⟩ := h
      subst h1; subst h2; subst h3
      refine ⟨hc, ?_, List.nodup_nil, rfl⟩
      intro k hk; cases hk
  | cons o os ih =>
      intro c rows c' log h hc
      cases hlo : alookup (o.kod, dateOf o.dt) c with
      | some w =>
          -- cache hit: `get_sun` serves the stored window without invoking
          -- the astral computation
          simp only [adnGo, getSun, hlo] at h
          cases hrec : adnGo sunF eff os c with
          | error e => rw [hrec] at h; exact Except.noConfusion h
          | ok t =>
              obtain ⟨rows', c'', log'⟩ := t
              rw [hrec] at h
              simp only [Bool.false_eq_true, if_false, Except.ok.injEq,
                Prod.mk.injEq] at h
              obtain ⟨h1, h2, h3⟩ := h
              subst h1; subst h2; subst h3
              obtain ⟨hcg, hfresh, hnodup, hcls⟩ := ih c rows' c'' log' hrec hc
              have hres : resolveWin sunF eff o.kod (dateOf o.dt) = .ok w :=
                hc _ _ _ hlo
              refine ⟨hcg, hfresh, hnodup, ?_⟩
              cases w with
              | none =>
                  simp only [classifyRows, classifyRow, hres, hcls]
              | some p =>
                  obtain ⟨sr, ss⟩ := p
                  simp only [classifyRows, classifyRow, hres, hcls]
      | none =>
        cases hg : mergedGeom eff o.kod with
        | none =>
              -- cache miss, missing geometry: the sentinel is cached
              simp only [adnGo, getSun, hlo, hg] at h
              cases hrec : adnGo sunF eff os
                  (((o.kod, dateOf o.dt), none) :: c) with
              | error e => rw [hrec] at h; exact Except.noConfusion h
              | ok t =>
                  obtain ⟨rows', c'', log'⟩ := t
                  rw [hrec] at h
                  simp only [Bool.false_eq_true, if_false, Except.ok.injEq,
                    Prod.mk.injEq] at h
                  obtain ⟨h1, h2, h3⟩ := h
                  subst h1; subst h2; subst h3
                  have hres : resolveWin sunF eff o.kod (dateOf o.dt)
                      = .ok none := by
                    rw [resolveWin, hg]
                  have hc2 : cacheGood sunF eff
                      (((o.kod, dateOf o.dt), none) :: c) :=
                    cacheGood_cons sunF eff hc _ _ _ hres
                  obtain ⟨hcg, hfresh, hnodup, hcls⟩ :=
                    ih _ rows' c'' log' hrec hc2
                  refine ⟨hcg, ?_, hnodup, ?_⟩
                  · intro k hk
                    exact alookup_cons_none (hfresh k hk)
                  · have hclsRow : classifyRow sunF eff o =
                        .ok ⟨o.kod, o.dt, o.value, "noc"⟩ := by
                      rw [classifyRow, hres]
                    simp only [classifyRows, hclsRow, hcls]
        | some xy =>
              obtain ⟨x, y⟩ := xy
              cases hsun : sunF y x (dateOf o.dt) with
              | none =>
                  -- the astral computation raises: the whole call aborts
                  simp only [adnGo, getSun, hlo, hg, hsun] at h
                  exact Except.noConfusion h
              | some w0 =>
                  simp only [adnGo, getSun, hlo, hg, hsun] at h
                  cases hrec : adnGo sunF eff os
                      (((o.kod, dateOf o.dt), some w0) :: c) with
                  | error e => rw [hrec] at h; exact Except.noConfusion h
                  | ok t =>
                      obtain ⟨rows', c'', log'⟩ := t
                      rw [hrec] at h
                      simp only [if_true, Except.ok.injEq, Prod.mk.injEq] at h
                      obtain ⟨h1, h2, h3⟩ := h
                      subst h1; subst h2; subst h3
                      have hres : resolveWin sunF eff o.kod (dateOf o.dt)
                          = .ok (some w0) := by
                        simp only [resolveWin, hg, hsun]
                      have hc2 : cacheGood sunF eff
                          (((o.kod, dateOf o.dt), some w0) :: c) :=
                        cacheGood_cons sunF eff hc _ _ _ hres
                      obtain ⟨hcg, hfresh, hnodup, hcls⟩ :=
                        ih _ rows' c'' log' hrec hc2
                      refine ⟨hcg, ?_, ?_, ?_⟩
                      · intro k hk
                        rcases List.mem_cons.mp hk with hk | hk
                        · subst hk; exact hlo
                        · exact alookup_cons_none (hfresh k hk)
                      · refine List.nodup_cons.mpr ⟨?_, hnodup⟩
                        intro hmem
                        have := hfresh _ hmem
                        simp [alookup] at this
                      · obtain ⟨sr, ss⟩ := w0
                        have hclsRow : classifyRow sunF eff o =
                            .ok ⟨o.kod, o.dt, o.value,
                              if sr ≤ o.dt ∧ o.dt ≤ ss then "dzien"
                              else "noc"⟩ := by
                          rw [classifyRow, hres]
                        simp only [classifyRows, hclsRow, hcls]

lemma cacheGood_nil (sunF : SunF) (eff : EffMap) : cacheGood sunF eff [] := by
  intro k d w hl
  simp only [alookup] at hl
  exact Option.noConfusion hl

lemma count_le_one_of_nodup {α : Type} [BEq α] [LawfulBEq α] {l : List α}
    (h : l.Nodup) (a : α) : l.count a ≤ 1 := by
  induction l with
  | nil => simp
  | cons b l ih =>
      obtain ⟨hb, hl⟩ := List.nodup_cons.mp h
      rw [List.count_cons]
      by_cases hba : (b == a : Bool)
      · have hev : b = a := eq_of_beq hba
        subst hev
        have h0 : l.count b = 0 := List.count_eq_zero.mpr hb
        simp [hba, h0]
      · rw [if_neg hba]
        simpa using ih hl

lemma classifyRow_fields {sunF : SunF} {eff : EffMap} {o : ObsB} {r : RowB}
    (h : classifyRow sunF eff o = .ok r) :
    r.kod = o.kod ∧ r.dt = o.dt ∧ r.value = o.value := by
  cases hres : resolveWin sunF eff o.kod (dateOf o.dt) with
  | error e =>
      simp only [classifyRow, hres] at h
      exact Except.noConfusion h
  | ok w =>
      cases w with
      | none =>
          simp only [classifyRow, hres, Except.ok.injEq] at h
          subst h
          exact ⟨rfl, rfl, rfl⟩
      | some p =>
          obtain ⟨sr, ss⟩ := p
          simp only [classifyRow, hres, Except.ok.injEq] at h
          subst h
          exact ⟨rfl, rfl, rfl⟩

lemma classifyRows_mem (sunF : SunF) (eff : EffMap) :
    ∀ (os : List ObsB) (rows : List RowB) (r : RowB),
      classifyRows sunF eff os = .ok rows → r ∈ rows →
      ∃ o ∈ os, classifyRow sunF eff o = .ok r := by
  intro os
  induction os with
  | nil =>
      intro rows r h hr
      simp only [classifyRows, Except.ok.injEq] at h
      subst h
      cases hr
  | cons o os ih =>
      intro rows r h hr
      cases h1 : classifyRow sunF eff o with
      | error e =>
          simp only [classifyRows, h1] at h
          exact Except.noConfusion h
      | ok r0 =>
          cases h2 : classifyRows sunF eff os with
          | error e =>
              simp only [classifyRows, h1, h2] at h
              exact Except.noConfusion h
          | ok rs =>
              simp only [classifyRows, h1, h2, Except.ok.injEq] at h
              subst h
              rcases List.mem_cons.mp hr with h | h
              · exact ⟨o, List.mem_cons_self _ _, by rw [h1, h]⟩
              · obtain ⟨o', ho', hc⟩ := ih rs r h2 h
                exact ⟨o', List.mem_cons.mpr (Or.inr ho'), hc⟩

/-- Claim C1 (amended): in `app.py`'s `compute_day_night`, every output row
whose station cannot be resolved (code absent from `loc_map`, or the astral
computation raising for its date) is labelled `'unknown'` — in particular
never `'night'`; `app1.py`'s `add_day_night_astral`, by contrast, labels
every observation with a missing or empty geometry `"noc"` (night). -/
theorem claim1_unresolvable_unknown :
    (∀ (sunF : SunF) (locMap : LocMap) (l : List ObsA) (r : RowDN)
        (k : StationCode), r ∈ computeDayNight sunF locMap l →
        r.kod = some k → unresolvableA sunF locMap k r.date →
        r.daynight = Period.unknown) ∧
    (∀ (sunF : SunF) (eff : EffMap) (obs : List ObsB) (rows : List RowB)
        (c : SunCache) (log : List (StationCode × Date)) (r : RowB),
        addDayNightAstral sunF eff obs = .ok (rows, c, log) → r ∈ rows →
        mergedGeom eff r.kod = none → r.period = "noc") := by
  constructor
  · intro sunF locMap l r k hr hkod hunres
    exact cdn_unresolvable_unknown sunF locMap l r hr k hkod hunres
  · intro sunF eff obs rows c log r h hr hg
    obtain ⟨_, _, _, hcls⟩ :=
      adnGo_invariant sunF eff obs [] rows c log h (cacheGood_nil sunF eff)
    obtain ⟨o, ho, hcro⟩ := classifyRows_mem sunF eff obs rows r hcls hr
    obtain ⟨hk, _, _⟩ := classifyRow_fields hcro
    rw [hk] at hg
    have hres : resolveWin sunF eff o.kod (dateOf o.dt) = .ok none := by
      rw [resolveWin, hg]
    simp only [classifyRow, hres, Except.ok.injEq] at hcro
    subst hcro
    rfl

/-- Concrete data for the C1 counterexample: an empty station reference, so
station `"B"` has no geometry. -/
def effX : EffMap := []

def obsBX : List ObsB := [⟨"B", 720, 1⟩]

/-- Claim C1, counterexample as stated: in `app1.py`, the observation of
station `"B"` — whose location cannot be resolved — is labelled `"noc"`
(night), not an `unknown` sentinel. -/
theorem claim1_counterexample :
    mergedGeom effX "B" = none ∧
    addDayNightAstral sunFX effX obsBX
      = .ok ([⟨"B", 720, 1, "noc"⟩], [(("B", 0), none)], []) ∧
    ("noc" : String) ≠ "unknown" := by
  refine ⟨rfl, rfl, by decide⟩

/-- Claim C5: within one classifier run the astronomical computation is
executed at most once per distinct `(station_id, date)` key — in `app1.py`
because `get_sun` consults the run's cache first, in `app.py` because the
loop runs over the distinct keys of `groupby(['KodSH','date'])`. -/
theorem claim5_sun_called_once :
    (∀ (sunF : SunF) (eff : EffMap) (obs : List ObsB) (rows : List RowB)
        (c : SunCache) (log : List (StationCode × Date)),
        addDayNightAstral sunF eff obs = .ok (rows, c, log) →
        ∀ k, log.count k ≤ 1) ∧
    (∀ (sunF : SunF) (locMap : LocMap) (l : List ObsA)
        (k : StationCode × Date), (cdnLog sunF locMap l).count k ≤ 1) := by
  constructor
  · intro sunF eff obs rows c log h k
    obtain ⟨_, _, hnodup, _⟩ :=
      adnGo_invariant sunF eff obs [] rows c log h (cacheGood_nil sunF eff)
    exact count_le_one_of_nodup hnodup k
  · intro sunF locMap l k
    rw [cdnLog_eq]
    exact count_le_one_of_nodup ((List.nodup_dedup _).filter _) k

/-- Claim C6: after a successful classifier run, every cached daylight
window equals the fresh computation for its key — a lookup served from the
cache is identical to what populating that entry computed. -/
theorem claim6_cache_equivalence (sunF : SunF) (eff : EffMap)
    (obs : List ObsB) (rows : List RowB) (c : SunCache)
    (log : List (StationCode × Date))
    (h : addDayNightAstral sunF eff obs = .ok (rows, c, log)) :
    ∀ (k : StationCode) (d : Date) (w : Option (Instant × Instant)),
      alookup (k, d) c = some w → resolveWin sunF eff k d = .ok w := by
  intro k d w hl
  obtain ⟨hcg, _, _, _⟩ :=
    adnGo_invariant sunF eff obs [] rows c log h (cacheGood_nil sunF eff)
  exact hcg k d w hl

/-! ### Claims C7 and C10 across both classifiers -/

/-- The `(station_id, timestamp, value)` triple of an `app1.py` input
observation. -/
def obsTripleB (o : ObsB) : StationCode × Instant × ℚ := (o.kod, o.dt, o.value)

/-- The `(station_id, timestamp, value)` triple of an `app1.py` output
row. -/
def rowTripleB (r : RowB) : StationCode × Instant × ℚ := (r.kod, r.dt, r.value)

/-- The fresh row-by-row classification keeps the observation triples, one
output row per input row, in order. -/
lemma classifyRows_triples (sunF : SunF) (eff : EffMap) :
    ∀ (os : List ObsB) (rows : List RowB),
      classifyRows sunF eff os = .ok rows →
      rows.map rowTripleB = os.map obsTripleB := by
  intro os
  induction os with
  | nil =>
      intro rows h
      simp only [classifyRows, Except.ok.injEq] at h
      subst h
      rfl
  | cons o os ih =>
      intro rows h
      cases h1 : classifyRow sunF eff o with
      | error e =>
          simp only [classifyRows, h1] at h
          exact Except.noConfusion h
      | ok r0 =>
          cases h2 : classifyRows sunF eff os with
          | error e =>
              simp only [classifyRows, h1, h2] at h
              exact Except.noConfusion h
          | ok rs =>
              simp only [classifyRows, h1, h2, Except.ok.injEq] at h
              subst h
              obtain ⟨hk, hdt, hv⟩ := classifyRow_fields h1
              rw [List.map_cons, List.map_cons, ih rs h2]
              rw [rowTripleB, obsTripleB, hk, hdt, hv]

/-- Claim C7: in both classifiers, an observation whose station location is
known and whose daylight window resolves is labelled DAY exactly when
`sunrise ≤ timestamp ≤ sunset`, with both endpoints inclusive, and NIGHT
otherwise — `app.py`'s `compute_day_night` with `'day'`/`'night'`, and
`app1.py`'s `add_day_night_astral` with `"dzien"`/`"noc"`. -/
theorem claim7_day_iff_window :
    (∀ (sunF : SunF) (locMap : LocMap) (l : List ObsA) (r : RowDN)
        (k : StationCode) (lat lon : ℚ) (sr ss : Instant),
        r ∈ computeDayNight sunF locMap l → r.kod = some k →
        alookup k locMap = some (lat, lon) →
        sunF lat lon r.date = some (sr, ss) →
        (r.daynight = Period.day ↔ (sr ≤ r.dt ∧ r.dt ≤ ss)) ∧
        (r.daynight = Period.night ↔ ¬(sr ≤ r.dt ∧ r.dt ≤ ss))) ∧
    (∀ (sunF : SunF) (eff : EffMap) (obs : List ObsB) (rows : List RowB)
        (c : SunCache) (log : List (StationCode × Date)) (r : RowB)
        (x y : ℚ) (sr ss : Instant),
        addDayNightAstral sunF eff obs = .ok (rows, c, log) → r ∈ rows →
        mergedGeom eff r.kod = some (x, y) →
        sunF y x (dateOf r.dt) = some (sr, ss) →
        (r.period = "dzien" ↔ (sr ≤ r.dt ∧ r.dt ≤ ss)) ∧
        (r.period = "noc" ↔ ¬(sr ≤ r.dt ∧ r.dt ≤ ss))) := by
  constructor
  · intro sunF locMap l r k lat lon sr ss hr hkod hloc hsun
    exact cdn_day_iff_window sunF locMap l r k lat lon sr ss hr hkod hloc hsun
  · intro sunF eff obs rows c log r x y sr ss h hr hg hs
    obtain ⟨_, _, _, hcls⟩ :=
      adnGo_invariant sunF eff obs [] rows c log h (cacheGood_nil sunF eff)
    obtain ⟨o, ho, hcro⟩ := classifyRows_mem sunF eff obs rows r hcls hr
    obtain ⟨hk, hdt, _⟩ := classifyRow_fields hcro
    rw [hk] at hg
    rw [hdt] at hs
    have hres : resolveWin sunF eff o.kod (dateOf o.dt)
        = .ok (some (sr, ss)) := by
      simp only [resolveWin, hg, hs]
    simp only [classifyRow, hres, Except.ok.injEq] at hcro
    subst hcro
    by_cases hcond : sr ≤ o.dt ∧ o.dt ≤ ss
    · constructor
      · show (if sr ≤ o.dt ∧ o.dt ≤ ss then "dzien" else "noc") = "dzien" ↔ _
        rw [if_pos hcond]
        exact ⟨fun _ => hcond, fun _ => rfl⟩
      · show (if sr ≤ o.dt ∧ o.dt ≤ ss then "dzien" else "noc") = "noc" ↔ _
        rw [if_pos hcond]
        exact ⟨fun h' => absurd h' (by decide), fun h' => absurd hcond h'⟩
    · constructor
      · show (if sr ≤ o.dt ∧ o.dt ≤ ss then "dzien" else "noc") = "dzien" ↔ _
        rw [if_neg hcond]
        exact ⟨fun h' => absurd h' (by decide), fun h' => absurd h' hcond⟩
      · show (if sr ≤ o.dt ∧ o.dt ≤ ss then "dzien" else "noc") = "noc" ↔ _
        rw [if_neg hcond]
        exact ⟨fun _ => hcond, fun _ => rfl⟩

/-- Claim C10 (amended): with each station code appearing at most once in
the reference and all observation station ids non-null, both classifiers
return exactly one output row per input observation and preserve the
`(station_id, timestamp, value)` triples.  In `app.py` the output triples
are a permutation of the input's (the `groupby`/`concat` reorders rows);
in `app1.py` the left merge on `KodSH` — whose association-list model
`mergedGeom` is faithful exactly because the codes are unique — keeps the
rows in place, so the triples are preserved in order. -/
theorem claim10_row_preservation :
    (∀ (sunF : SunF) (locMap : LocMap) (l : List ObsA),
        (∀ o ∈ l, o.kod.isSome) →
        ((computeDayNight sunF locMap l).map rowTriple).Perm
          (l.map obsTriple)) ∧
    (∀ (sunF : SunF) (eff : EffMap) (obs : List ObsB) (rows : List RowB)
        (c : SunCache) (log : List (StationCode × Date)),
        (eff.map Prod.fst).Nodup →
        addDayNightAstral sunF eff obs = .ok (rows, c, log) →
        rows.map rowTripleB = obs.map obsTripleB) := by
  constructor
  · intro sunF locMap l hk
    exact cdn_row_preservation sunF locMap l hk
  · intro sunF eff obs rows c log _ h
    obtain ⟨_, _, _, hcls⟩ :=
      adnGo_invariant sunF eff obs [] rows c log h (cacheGood_nil sunF eff)
    exact classifyRows_triples sunF eff obs rows hcls

/-! ## Spatial aggregation (`aggregate_by_admin`, `app.py` lines 242–280
and `app1.py` lines 156–213)

Station statistics are joined to the station points, assigned by
point-in-polygon containment to at most one admin unit (a station in no
polygon is excluded: `sjoin(..., predicate="within")` is an inner join in
`app1.py`; `app.py`'s `how='left'` keeps a NaN id that the subsequent
`groupby` drops — same effect), and the groups `(admin_id, date, period)`
are aggregated with `mean:'mean'`, `median:'median'`,
`trimmed_mean:'mean'`, `count:'sum'`. -/

/-- A per-station statistics row (`compute_stats` / `compute_daily_stats`
output): key `(KodSH, date, period)` plus the four statistics. -/
structure StatRow where
  kod : StationCode
  date : Date
  period : String
  mean : ℚ
  median : ℚ
  trimmed : ℚ
  count : ℕ
deriving DecidableEq, Repr

/-- The containment assignment of the spatial join: station code to the (at
most one) admin unit whose polygon contains its point; `none` when no
polygon of the layer does. -/
abbrev AdminAssign := StationCode → Option String

def aggKey (adminOf : AdminAssign) (r : StatRow) :
    Option (String × Date × String) :=
  (adminOf r.kod).map (fun a => (a, r.date, r.period))

def aggKeys (adminOf : AdminAssign) (l : List StatRow) :
    List (String × Date × String) :=
  (l.filterMap (aggKey adminOf)).dedup

def aggGroup (adminOf : AdminAssign) (l : List StatRow)
    (k : String × Date × String) : List StatRow :=
  l.filter (fun r => aggKey adminOf r = some k)

/-- An admin-level aggregate row.  Note the `median` field: the code
aggregates the per-station medians with the *median* function
(`median=("median","median")`), not their mean. -/
structure AggRow where
  admin : String
  date : Date
  period : String
  mean : ℚ
  median : ℚ
  trimmed : ℚ
  count : ℕ
deriving DecidableEq, Repr, Inhabited

/-- Models `aggregate_by_admin`: one output row per `(admin_id, date, period)`
group of the joined rows. -/
def aggregateByAdmin (adminOf : AdminAssign) (l : List StatRow) :
    List AggRow :=
  (aggKeys adminOf l).map (fun k =>
    let g := aggGroup adminOf l k
    ⟨k.1, k.2.1, k.2.2,
      meanQ (g.map StatRow.mean),
      medianQ (g.map StatRow.median),
      meanQ (g.map StatRow.trimmed),
      (g.map StatRow.count).sum⟩)

/-- Claim C2 (amended): each output row of the spatial aggregator carries
the arithmetic mean of its group's station means, the **median** (not the
mean) of the station medians, the mean of the station trimmed means, and
the sum of the station counts; the group is exactly the set of joined input
rows with that `(admin, date, period)` key, and no key produces two rows. -/
theorem claim2_admin_aggregation (adminOf : AdminAssign) (l : List StatRow)
    (row : AggRow) (hrow : row ∈ aggregateByAdmin adminOf l) :
    row.mean = meanQ ((aggGroup adminOf l (row.admin, row.date, row.period)).map
        StatRow.mean) ∧
    row.median = medianQ ((aggGroup adminOf l (row.admin, row.date, row.period)).map
        StatRow.median) ∧
    row.trimmed = meanQ ((aggGroup adminOf l (row.admin, row.date, row.period)).map
        StatRow.trimmed) ∧
    row.count = ((aggGroup adminOf l (row.admin, row.date, row.period)).map
        StatRow.count).sum ∧
    (∀ r ∈ aggGroup adminOf l (row.admin, row.date, row.period),
      adminOf r.kod = some row.admin ∧ r.date = row.date ∧
        r.period = row.period) ∧
    (∀ row2 ∈ aggregateByAdmin adminOf l,
      (row2.admin, row2.date, row2.period) = (row.admin, row.date, row.period) →
      row2 = row) := by
  obtain ⟨k, hk, hbuild⟩ := List.mem_map.mp hrow
  have hkey : (row.admin, row.date, row.period) = k := by
    rw [← hbuild]
  subst hkey
  refine ⟨?_, ?_, ?_, ?_, ?_, ?_⟩
  · rw [← hbuild]
  · rw [← hbuild]
  · rw [← hbuild]
  · rw [← hbuild]
  · intro r hr
    obtain ⟨_, hkr⟩ := List.mem_filter.mp hr
    have hkr' : aggKey adminOf r = some (row.admin, row.date, row.period) :=
      of_decide_eq_true hkr
    cases ha : adminOf r.kod with
    | none => rw [aggKey, ha] at hkr'; cases hkr'
    | some a =>
        rw [aggKey, ha] at hkr'
        simp only [Option.map_some'] at hkr'
        injection hkr' with hkr'
        injection hkr' with h1 h2
        injection h2 with h2 h3
        exact ⟨by rw [h1], h2, h3⟩
  · intro row2 h2 hkey2
    obtain ⟨k2, hk2, hbuild2⟩ := List.mem_map.mp h2
    have hkey2' : (row2.admin, row2.date, row2.period) = k2 := by
      rw [← hbuild2]
    rw [hkey2'] at hkey2
    rw [← hbuild2, ← hbuild, ← hkey2]

/-- Concrete data for the C2 counterexample: three stations in one polygon
`"P"`, same date and period, with per-station medians `0, 0, 3`. -/
def adminOfX : AdminAssign := fun _ => some "P"

def statRowsX : List StatRow :=
  [⟨"s1", 0, "dzien", 1, 0, 1, 3⟩,
   ⟨"s2", 0, "dzien", 2, 0, 2, 4⟩,
   ⟨"s3", 0, "dzien", 3, 3, 3, 5⟩]

/-- Claim C2, counterexample as stated: the aggregator's `median` output for
the single `("P", 0, "dzien")` group is the *median* of the station medians
`[0, 0, 3]`, i.e. `0` — not their arithmetic mean `1` required by the
claim. -/
theorem claim2_counterexample :
    (aggregateByAdmin adminOfX statRowsX).map AggRow.median = [0] ∧
    meanQ (statRowsX.map StatRow.median) = 1 ∧ ((0 : ℚ) ≠ 1) := by
  refine ⟨by decide, ?_, by norm_num⟩
  norm_num [meanQ, statRowsX]

/-! ## Temporal change series (`compute_changes`, `app1.py` lines 215–228)

The aggregate frame is partitioned by `(admin_id, period)`; within each
partition `resample("7D")` lays fixed-width, non-overlapping bins anchored
at the partition's first date, emitting one record per bin from the first
through the one holding the last date (empty bins included, with NaN
aggregates).  The representative of the `mean` column is the within-bin
mean, of the `median` column the within-bin *median*
(`.agg(mean=("mean","mean"), median=("median","median"))`).  `diff()` per
partition then yields `mean_change` / `median_change`, NaN on each
partition's first record. -/

/-- A change record: the resampled bin values and their successive
differences; `none` models NaN. -/
structure ChRec where
  admin : String
  period : String
  winStart : Date
  mean : Option ℚ
  median : Option ℚ
  meanDelta : Option ℚ
  medianDelta : Option ℚ
deriving DecidableEq, Repr, Inhabited

/-- The distinct `(admin_id, period)` partition keys. -/
def chKeys (l : List AggRow) : List (String × String) :=
  (l.map (fun r => (r.admin, r.period))).dedup

/-- The rows of one partition. -/
def chGroup (l : List AggRow) (k : String × String) : List AggRow :=
  l.filter (fun r => (r.admin, r.period) = k)

def listMinI : List Date → Date
  | [] => 0
  | x :: xs => xs.foldl min x

def listMaxI : List Date → Date
  | [] => 0
  | x :: xs => xs.foldl max x

/-- Index of the `cadence`-day bin a date falls in, bins anchored at the
partition's first day. -/
def binIndex (cadence : ℕ) (start d : Date) : ℕ :=
  ((d - start).toNat) / cadence

/-- How many bins the resampler emits for a partition (first through the
bin holding the last date). -/
def numBins (cadence : ℕ) (start maxd : Date) : ℕ :=
  ((maxd - start).toNat) / cadence + 1

def binRows (cadence : ℕ) (g : List AggRow) (start : Date) (i : ℕ) :
    List AggRow :=
  g.filter (fun r => binIndex cadence start r.date = i)

/-- Within-bin representative of the `mean` column: its arithmetic mean, or
NaN for an empty bin. -/
def winMean (cadence : ℕ) (g : List AggRow) (start : Date) (i : ℕ) :
    Option ℚ :=
  if binRows cadence g start i = [] then none
  else some (meanQ ((binRows cadence g start i).map AggRow.mean))

/-- Within-bin representative of the `median` column: its *median*. -/
def winMedian (cadence : ℕ) (g : List AggRow) (start : Date) (i : ℕ) :
    Option ℚ :=
  if binRows cadence g start i = [] then none
  else some (medianQ ((binRows cadence g start i).map AggRow.median))

/-- NaN-propagating difference (`Series.diff`). -/
def optSub : Option ℚ → Option ℚ → Option ℚ
  | some a, some b => some (a - b)
  | _, _ => none

/-- The records one partition contributes, in ascending window order. -/
def mkChRecs (cadence : ℕ) (k : String × String) (g : List AggRow) :
    List ChRec :=
  let start := listMinI (g.map AggRow.date)
  let n := numBins cadence start (listMaxI (g.map AggRow.date))
  (List.range n).map (fun (i : ℕ) =>
    ⟨k.1, k.2, start + ((cadence * i : ℕ) : Date),
      winMean cadence g start i, winMedian cadence g start i,
      if i = 0 then none
      else optSub (winMean cadence g start i) (winMean cadence g start (i - 1)),
      if i = 0 then none
      else optSub (winMedian cadence g start i)
        (winMedian cadence g start (i - 1))⟩)

/-- Models `compute_changes` of `app1.py`. -/
def computeChanges (cadence : ℕ) (l : List AggRow) : List ChRec :=
  (chKeys l).flatMap (fun k => mkChRecs cadence k (chGroup l k))

lemma mem_mkChRecs_key {cadence : ℕ} {k : String × String} {g : List AggRow}
    {r : ChRec} (hr : r ∈ mkChRecs cadence k g) : (r.admin, r.period) = k := by
  obtain ⟨i, _, rfl⟩ := List.mem_map.mp hr
  rfl

/-- Filtering the full change output on one partition key recovers exactly
that partition's records. -/
lemma computeChanges_filter (cadence : ℕ) (l : List AggRow)
    (k : String × String) (hk : k ∈ chKeys l) :
    (computeChanges cadence l).filter
        (fun r => (r.admin, r.period) = k)
      = mkChRecs cadence k (chGroup l k) := by
  rw [computeChanges]
  have hnd : (chKeys l).Nodup := List.nodup_dedup _
  revert hk hnd
  generalize chKeys l = ks
  intro hk hnd
  induction ks with
  | nil => cases hk
  | cons k' ks ih =>
      rw [List.flatMap_cons, List.filter_append]
      rcases List.mem_cons.mp hk with h | h
      · subst h
        have h1 : (mkChRecs cadence k (chGroup l k)).filter
            (fun r => (r.admin, r.period) = k)
            = mkChRecs cadence k (chGroup l k) := by
          rw [List.filter_eq_self]
          intro r hr
          exact decide_eq_true (mem_mkChRecs_key hr)
        have h2 : (ks.flatMap (fun k' => mkChRecs cadence k' (chGroup l k'))).filter
            (fun r => (r.admin, r.period) = k) = [] := by
          rw [List.filter_eq_nil]
          intro r hr
          obtain ⟨k'', hk'', hrk⟩ := List.mem_flatMap.mp hr
          have := mem_mkChRecs_key hrk
          have hne : k'' ≠ k := by
            intro hcon
            exact (List.nodup_cons.mp hnd).1 (hcon ▸ hk'')
          rw [this]
          simp [hne]
        rw [h1, h2, List.append_nil]
      · have hne : k' ≠ k := by
          intro hcon
          exact (List.nodup_cons.mp hnd).1 (hcon ▸ h)
        have h1 : (mkChRecs cadence k' (chGroup l k')).filter
            (fun r => (r.admin, r.period) = k) = [] := by
          rw [List.filter_eq_nil]
          intro r hr
          have := mem_mkChRecs_key hr
          rw [this]
          simp [hne]
        rw [h1, List.nil_append]
        exact ih h (List.nodup_cons.mp hnd).2

lemma getD_range_map {α : Type} (d : α) (n : ℕ) (f : ℕ → α) (i : ℕ)
    (hi : i < n) : ((List.range n).map f).getD i d = f i := by
  have hlen : i < ((List.range n).map f).length := by simpa using hi
  rw [List.getD_eq_getElem _ _ hlen, List.getElem_map, List.getElem_range]

/-- The records `compute_changes` emits for partition `k`. -/
def chRecsFor (cadence : ℕ) (l : List AggRow) (k : String × String) :
    List ChRec :=
  (computeChanges cadence l).filter (fun r => (r.admin, r.period) = k)

/-- The anchor (first date) of partition `k`. -/
def chStart (l : List AggRow) (k : String × String) : Date :=
  listMinI ((chGroup l k).map AggRow.date)

/-- The number of bins the resampler emits for partition `k`. -/
def chBins (cadence : ℕ) (l : List AggRow) (k : String × String) : ℕ :=
  numBins cadence (chStart l k) (listMaxI ((chGroup l k).map AggRow.date))

/-- Claim C3 (amended): per `(admin_id, period)` partition the change engine
emits one record per fixed-width bin (anchored at the partition's first
date), ordered by window start; each record's `mean` is the within-bin
arithmetic mean of `mean_of_means` while its `median` is the within-bin
**median** (not mean) of the station-median aggregates; deltas are
`value[i] − value[i−1]` with NaN-propagation, and are null on the first
record — so a single-window partition yields exactly one record with null
deltas. -/
theorem claim3_change_series (cadence : ℕ) (l : List AggRow)
    (k : String × String) (hk : k ∈ chKeys l) :
    (chRecsFor cadence l k).length = chBins cadence l k ∧
    1 ≤ chBins cadence l k ∧
    (∀ i : ℕ, i < chBins cadence l k →
      ((chRecsFor cadence l k).getD i default).winStart
          = chStart l k + ((cadence * i : ℕ) : Date) ∧
      ((chRecsFor cadence l k).getD i default).mean
          = winMean cadence (chGroup l k) (chStart l k) i ∧
      ((chRecsFor cadence l k).getD i default).median
          = winMedian cadence (chGroup l k) (chStart l k) i) ∧
    ((chRecsFor cadence l k).getD 0 default).meanDelta = none ∧
    ((chRecsFor cadence l k).getD 0 default).medianDelta = none ∧
    (∀ i : ℕ, i + 1 < chBins cadence l k →
      ((chRecsFor cadence l k).getD (i + 1) default).meanDelta
          = optSub (winMean cadence (chGroup l k) (chStart l k) (i + 1))
              (winMean cadence (chGroup l k) (chStart l k) i) ∧
      ((chRecsFor cadence l k).getD (i + 1) default).medianDelta
          = optSub (winMedian cadence (chGroup l k) (chStart l k) (i + 1))
              (winMedian cadence (chGroup l k) (chStart l k) i)) := by
  have hrecs : chRecsFor cadence l k = mkChRecs cadence k (chGroup l k) :=
    computeChanges_filter cadence l k hk
  have hone : 1 ≤ chBins cadence l k := by
    rw [chBins, numBins]
    exact Nat.succ_le_succ (Nat.zero_le _)
  refine ⟨?_, hone, ?_, ?_, ?_, ?_⟩
  · rw [hrecs]
    simp only [mkChRecs, List.length_map, List.length_range]
    rfl
  · intro i hi
    have hi' : i < numBins cadence (listMinI ((chGroup l k).map AggRow.date))
        (listMaxI ((chGroup l k).map AggRow.date)) := hi
    rw [hrecs]
    simp only [mkChRecs]
    rw [getD_range_map _ _ _ i hi']
    exact ⟨rfl, rfl, rfl⟩
  · have h0 : 0 < numBins cadence (listMinI ((chGroup l k).map AggRow.date))
        (listMaxI ((chGroup l k).map AggRow.date)) := hone
    rw [hrecs]
    simp only [mkChRecs]
    rw [getD_range_map _ _ _ 0 h0]
    rfl
  · have h0 : 0 < numBins cadence (listMinI ((chGroup l k).map AggRow.date))
        (listMaxI ((chGroup l k).map AggRow.date)) := hone
    rw [hrecs]
    simp only [mkChRecs]
    rw [getD_range_map _ _ _ 0 h0]
    rfl
  · intro i hi
    have hi' : i + 1 < numBins cadence (listMinI ((chGroup l k).map AggRow.date))
        (listMaxI ((chGroup l k).map AggRow.date)) := hi
    rw [hrecs]
    simp only [mkChRecs]
    rw [getD_range_map _ _ _ (i + 1) hi']
    constructor
    · show (if i + 1 = 0 then none
        else optSub (winMean cadence (chGroup l k) (chStart l k) (i + 1))
          (winMean cadence (chGroup l k) (chStart l k) (i + 1 - 1))) = _
      rw [if_neg (Nat.succ_ne_zero i), Nat.add_sub_cancel]
    · show (if i + 1 = 0 then none
        else optSub (winMedian cadence (chGroup l k) (chStart l k) (i + 1))
          (winMedian cadence (chGroup l k) (chStart l k) (i + 1 - 1))) = _
      rw [if_neg (Nat.succ_ne_zero i), Nat.add_sub_cancel]

/-- Concrete data for the C3 counterexample: one partition `("P","dzien")`
with dates 0, 1, 2 (a single 7-day window) and `median` aggregates
`0, 0, 3`. -/
def aggRowsX : List AggRow :=
  [⟨"P", 0, "dzien", 1, 0, 1, 3⟩,
   ⟨"P", 1, "dzien", 2, 0, 2, 4⟩,
   ⟨"P", 2, "dzien", 3, 3, 3, 5⟩]

/-- Claim C3, counterexample as stated: within the single window the engine
takes the *median* of the `median` column (`0`), not its arithmetic mean
(`1`) as the claim requires. -/
theorem claim3_counterexample :
    (computeChanges 7 aggRowsX).map ChRec.median = [some 0] ∧
    meanQ (aggRowsX.map AggRow.median) = 1 ∧
    ((some (0 : ℚ) : Option ℚ) ≠ some 1) := by
  refine ⟨by decide, ?_, by decide⟩
  norm_num [meanQ, aggRowsX]

/-! ## Observation loaders (`read_parameter_csvs`, `app.py` lines 61–110 and
`app1.py` lines 75–97)

Both loaders read raw rows `(KodSH, ParametrSH, Data, Value)`, filter on the
parameter code and concatenate across files.  `app.py` parses the timestamp
with `errors='coerce'`, normalizes the decimal comma, parses the value with
`errors='coerce'`, and drops the rows where either is NaN — it never raises
for a malformed row.  `app1.py` parses the timestamp the same way, but
converts the value column with `.str.replace(',', '.').astype(float)`,
which *raises* on any unparseable value string.

The timestamp and float parsers are external collaborators
(`pd.to_datetime`, `float`); the loaders are parameterised by them, `none`
meaning "does not parse". -/

/-- A raw delimited record; `kod` is `none` when the field is missing
(NaN). -/
structure RawRow where
  kod : Option String
  param : String
  dataStr : String
  valueStr : String
deriving DecidableEq, Repr

/-- Decimal-separator normalization, `str.replace(',', '.')` (every comma
replaced by a dot). -/
def normDec (s : String) : String :=
  ⟨s.data.map (fun c => if c = ',' then '.' else c)⟩

/-- A tolerant timestamp reader (`pd.to_datetime(..., errors='coerce')`). -/
abbrev TsP := String → Option Instant

/-- A float reader (`pd.to_numeric` / `float`). -/
abbrev ValP := String → Option ℚ

/-- One row of the `app.py` loader: both fields must parse, else the row is
dropped (`dropna(subset=['datetime','Value'])`). -/
def parseRowA (tsP : TsP) (valP : ValP) (r : RawRow) : Option ObsA :=
  match tsP r.dataStr, valP (normDec r.valueStr) with
  | some t, some v => some ⟨r.kod, t, v⟩
  | _, _ => none

/-- Models `read_parameter_csvs` of `app.py`: per file, filter on the parameter
code, coerce-parse, drop malformed rows; concatenate the files. -/
def readParameterCsvsA (tsP : TsP) (valP : ValP) (code : String)
    (files : List (List RawRow)) : List ObsA :=
  (files.map (fun f =>
    (f.filter (fun r => r.param = code)).filterMap (parseRowA tsP valP))).flatten

/-- The value conversion of `app1.py` (line 91):
`df["Value"].str.replace(",", ".").astype(float)` — an unparseable value
string raises `ValueError`, aborting the load. -/
def parseValuesB (valP : ValP) : List RawRow → Except Unit (List (RawRow × ℚ))
  | [] => .ok []
  | r :: rs =>
    match valP (normDec r.valueStr) with
    | none => .error ()
    | some v =>
      match parseValuesB valP rs with
      | .error _ => .error ()
      | .ok tl => .ok ((r, v) :: tl)

/-- One file of the `app1.py` loader: filter on the code, convert the value
column (raising on failure), coerce-parse the timestamps and `dropna()`
(which drops NaN `KodSH` and NaT timestamps). -/
def readFileB (tsP : TsP) (valP : ValP) (code : String) (f : List RawRow) :
    Except Unit (List ObsB) :=
  match parseValuesB valP (f.filter (fun r => r.param = code)) with
  | .error _ => .error ()
  | .ok rows => .ok (rows.filterMap (fun rv =>
      match rv.1.kod, tsP rv.1.dataStr with
      | some k, some t => some ⟨k, t, rv.2⟩
      | _, _ => none))

/-- Models `read_parameter_csvs` of `app1.py`: concatenate the per-file results;
any file's value conversion raising aborts the whole load. -/
def readParameterCsvsB (tsP : TsP) (valP : ValP) (code : String) :
    List (List RawRow) → Except Unit (List ObsB)
  | [] => .ok []
  | f :: fs =>
    match readFileB tsP valP code f, readParameterCsvsB tsP valP code fs with
    | .ok a, .ok b => .ok (a ++ b)
    | _, _ => .error ()

/-- Claim C8 (amended): `app.py`'s loader is total — every malformed row
(unparseable timestamp, or unparseable value after decimal-comma
normalization) is dropped and the surviving rows are exactly the parses of
the well-formed matching rows, across all sources.  (`app1.py`'s loader, by
contrast, raises on an unparseable value string — see the
counterexample.) -/
theorem claim8_loader_drops_malformed (tsP : TsP) (valP : ValP)
    (code : String) (files : List (List RawRow)) :
    readParameterCsvsA tsP valP code files
      = (files.flatten.filter (fun r => r.param = code)).filterMap
          (parseRowA tsP valP) := by
  induction files with
  | nil => rfl
  | cons f fs ih =>
      rw [readParameterCsvsA, List.map_cons, List.flatten_cons,
        List.flatten_cons, List.filter_append, List.filterMap_append]
      rw [readParameterCsvsA] at ih
      rw [ih]

/-- Concrete data for the C8 counterexample. -/
def tsPX : TsP := fun s => if s = "2024-01-01 00:10" then some 10 else none

def valPX : ValP := fun s => if s = "7.0" then some 7 else none

def goodRowX : RawRow := ⟨some "s1", "B00300S", "2024-01-01 00:10", "7,0"⟩

def badRowX : RawRow := ⟨some "s2", "B00300S", "2024-01-01 00:10", "abc"⟩

/-- Claim C8, counterexample as stated: in `app1.py` the single malformed
value string `"abc"` makes the whole load raise (`Except.error`), losing
the well-formed row from the same source — while `app.py`'s loader drops
just the malformed row. -/
theorem claim8_counterexample :
    readParameterCsvsB tsPX valPX "B00300S" [[goodRowX, badRowX]]
      = .error () ∧
    readParameterCsvsA tsPX valPX "B00300S" [[goodRowX, badRowX]]
      = [⟨some "s1", 10, 7⟩] := by
  exact ⟨rfl, rfl⟩

/-! ## Frame effects of the stages (claim C9)

Pandas frames are mutable objects.  `app.py`'s `compute_day_night` begins
with `df = df_obs.copy()` (line 165), so all its column writes hit the copy
and the caller's frame is untouched.  `app1.py`'s `compute_changes`, by
contrast, starts with `df["date"] = pd.to_datetime(df["date"])` (line 216)
— an in-place write that converts the caller's `date` column from
`datetime.date` objects to `Timestamp`s before the local
`df = df.set_index(...)` rebinds the name.  (Its `add_day_night_astral` and
`aggregate_by_admin` likewise assign `df["KodSH"]` / `stats["KodSH"]` on
their inputs.)  Each stage is modelled as a state transformer returning the
caller-visible input alongside the result. -/

/-- A `date` cell of the aggregate frame: a `datetime.date` object before
`pd.to_datetime`, a `Timestamp` after. -/
inductive DateCell
  | date (d : Date)
  | timestamp (d : Date)
deriving DecidableEq, Repr

/-- The underlying day of a `date` cell. -/
def DateCell.val : DateCell → Date
  | .date d => d
  | .timestamp d => d

/-- Models `pd.to_datetime` on one cell. -/
def toTimestampCell : DateCell → DateCell
  | .date d => .timestamp d
  | .timestamp d => .timestamp d

/-- An aggregate row as the caller of `compute_changes` holds it, the
`date` column's representation made explicit.  (The `trimmed_mean` and
`count` columns are not consulted by `compute_changes` and are omitted.) -/
structure AggRowM where
  admin : String
  period : String
  dateC : DateCell
  mean : ℚ
  median : ℚ
deriving DecidableEq, Repr

/-- The view of a caller-held row that `compute_changes` computes on
(unused columns filled with 0). -/
def stripM (r : AggRowM) : AggRow :=
  ⟨r.admin, r.dateC.val, r.period, r.mean, r.median, 0, 0⟩

/-- Models `compute_changes` as a state transformer on the caller's frame: the
returned first component is the input object as the caller sees it after
the call — its `date` column converted in place — and the second is the
result. -/
def computeChangesCaller (cadence : ℕ) (l : List AggRowM) :
    List AggRowM × List ChRec :=
  let l' := l.map (fun r => { r with dateC := toTimestampCell r.dateC })
  (l', computeChanges cadence (l'.map stripM))

/-- Models `compute_day_night` of `app.py` as a state transformer: the input is
copied first, so the caller's frame comes back unchanged. -/
def computeDayNightCaller (sunF : SunF) (locMap : LocMap) (l : List ObsA) :
    List ObsA × List RowDN :=
  (l, computeDayNight sunF locMap l)

/-- Claim C9 (amended): `app.py`'s classification stage leaves its input
relation unchanged (it copies first); `app1.py`'s `compute_changes` gives
back its input with every `date` cell converted to a `Timestamp` in place —
the underlying days are preserved but the column's representation is not,
so the input object is mutated whenever some cell was a `datetime.date`. -/
theorem claim9_mutation :
    (∀ (sunF : SunF) (locMap : LocMap) (l : List ObsA),
      (computeDayNightCaller sunF locMap l).1 = l) ∧
    (∀ (cadence : ℕ) (l : List AggRowM),
      (computeChangesCaller cadence l).1
        = l.map (fun r => { r with dateC := toTimestampCell r.dateC })) ∧
    (∀ (cadence : ℕ) (l : List AggRowM),
      ((computeChangesCaller cadence l).1.map (fun r => r.dateC.val))
        = l.map (fun r => r.dateC.val)) := by
  refine ⟨fun _ _ _ => rfl, fun _ _ => rfl, fun cadence l => ?_⟩
  rw [computeChangesCaller]
  rw [List.map_map]
  refine List.map_congr_left ?_
  intro r _
  show (toTimestampCell r.dateC).val = r.dateC.val
  cases r.dateC with
  | date d => rfl
  | timestamp d => rfl

/-- Concrete data for the C9 counterexample. -/
def aggRowsMX : List AggRowM := [⟨"P", "dzien", DateCell.date 0, 1, 2⟩]

/-- Claim C9, counterexample as stated: after calling `compute_changes` on
a frame whose `date` column holds `datetime.date` objects, the caller's
frame differs from what was passed in — the column now holds
`Timestamp`s. -/
theorem claim9_counterexample :
    (computeChangesCaller 7 aggRowsMX).1 ≠ aggRowsMX ∧
    (computeChangesCaller 7 aggRowsMX).1
      = [⟨"P", "dzien", DateCell.timestamp 0, 1, 2⟩] := by
  exact ⟨by decide, by decide⟩

/-! ## Concrete witnesses -/

/-- A station reference with a known geometry, and two same-day
observations of it. -/
def effW : EffMap := [("A", some (20, 50))]

def obsW : List ObsB := [⟨"A", 720, 1⟩, ⟨"A", 725, 2⟩]

theorem claim1_witness :
    (RowDN.mk (some "Z") 720 5 0 Period.unknown).daynight = Period.unknown ∧
    (RowB.mk "B" 720 1 "noc").period = "noc" := by
  constructor
  · exact claim1_unresolvable_unknown.1 sunFX locMapX [⟨some "Z", 720, 5⟩]
      ⟨some "Z", 720, 5, 0, Period.unknown⟩ "Z" (by decide) rfl
      (by simp [unresolvableA, alookup, locMapX])
  · exact claim1_unresolvable_unknown.2 sunFX effX obsBX
      [⟨"B", 720, 1, "noc"⟩] [(("B", 0), none)] [] ⟨"B", 720, 1, "noc"⟩
      rfl (by decide) rfl

/-- The aggregate row the witness run produces for the key
`("P", 0, "dzien")`. -/
def aggRowW : AggRow :=
  ⟨"P", 0, "dzien",
    meanQ ((aggGroup adminOfX statRowsX ("P", 0, "dzien")).map StatRow.mean),
    medianQ ((aggGroup adminOfX statRowsX ("P", 0, "dzien")).map
      StatRow.median),
    meanQ ((aggGroup adminOfX statRowsX ("P", 0, "dzien")).map
      StatRow.trimmed),
    ((aggGroup adminOfX statRowsX ("P", 0, "dzien")).map StatRow.count).sum⟩

theorem claim2_witness :
    aggRowW.median
      = medianQ ((aggGroup adminOfX statRowsX
          (aggRowW.admin, aggRowW.date, aggRowW.period)).map
            StatRow.median) := by
  have hk : (("P" : String), (0 : Date), ("dzien" : String))
      ∈ aggKeys adminOfX statRowsX := by decide
  have hrow : aggRowW ∈ aggregateByAdmin adminOfX statRowsX :=
    List.mem_map_of_mem _ hk
  exact (claim2_admin_aggregation adminOfX statRowsX aggRowW hrow).2.1

theorem claim3_witness :
    1 ≤ chBins 7 aggRowsX ("P", "dzien") ∧
    ((chRecsFor 7 aggRowsX ("P", "dzien")).getD 0 default).meanDelta = none ∧
    ((chRecsFor 7 aggRowsX ("P", "dzien")).getD 0 default).medianDelta
      = none := by
  have h := claim3_change_series 7 aggRowsX ("P", "dzien") (by decide)
  exact ⟨h.2.1, h.2.2.2.1, h.2.2.2.2.1⟩

theorem claim4_witness :
    listMinQ [(3 : ℚ), 1, 2] ≤ trimmedMean (1 / 10) [(3 : ℚ), 1, 2] ∧
    trimmedMean (1 / 10) [(3 : ℚ), 1, 2] ≤ listMaxQ [(3 : ℚ), 1, 2] ∧
    trimmedMean (1 / 10) [(3 : ℚ), 1, 2] = meanQ [(3 : ℚ), 1, 2] := by
  have h := claim4_trimmed_mean_props (1 / 10) [(3 : ℚ), 1, 2] (by decide)
  exact ⟨h.1.1, h.1.2, h.2 (by norm_num)⟩

theorem claim5_witness :
    ([(("A" : StationCode), (0 : Date))]).count ("A", 0) ≤ 1 :=
  claim5_sun_called_once.1 sunFX effW obsW
    [⟨"A", 720, 1, "dzien"⟩, ⟨"A", 725, 2, "dzien"⟩]
    [(("A", 0), some (360, 1080))] [("A", 0)] rfl ("A", 0)

theorem claim6_witness :
    resolveWin sunFX effW "A" 0 = .ok (some (360, 1080)) :=
  claim6_cache_equivalence sunFX effW obsW
    [⟨"A", 720, 1, "dzien"⟩, ⟨"A", 725, 2, "dzien"⟩]
    [(("A", 0), some (360, 1080))] [("A", 0)] rfl "A" 0 (some (360, 1080))
    rfl

theorem claim7_witness :
    (((RowDN.mk (some "A") 720 1 0 Period.day).daynight = Period.day ↔
        ((360 : Instant) ≤ 720 ∧ (720 : Instant) ≤ 1080)) ∧
      ((RowDN.mk (some "A") 720 1 0 Period.day).daynight = Period.night ↔
        ¬((360 : Instant) ≤ 720 ∧ (720 : Instant) ≤ 1080))) ∧
    (((RowB.mk "A" 720 1 "dzien").period = "dzien" ↔
        ((360 : Instant) ≤ 720 ∧ (720 : Instant) ≤ 1080)) ∧
      ((RowB.mk "A" 720 1 "dzien").period = "noc" ↔
        ¬((360 : Instant) ≤ 720 ∧ (720 : Instant) ≤ 1080))) := by
  constructor
  · exact claim7_day_iff_window.1 sunFX locMapX [⟨some "A", 720, 1⟩]
      ⟨some "A", 720, 1, 0, Period.day⟩ "A" 50 20 360 1080
      (by decide) rfl (by decide) rfl
  · exact claim7_day_iff_window.2 sunFX effW obsW
      [⟨"A", 720, 1, "dzien"⟩, ⟨"A", 725, 2, "dzien"⟩]
      [(("A", 0), some (360, 1080))] [("A", 0)]
      ⟨"A", 720, 1, "dzien"⟩ 20 50 360 1080
      rfl (by decide) rfl rfl

theorem claim10_witness :
    ((computeDayNight sunFX locMapX [⟨some "A", 720, 1⟩]).map rowTriple).Perm
      ([(⟨some "A", 720, 1⟩ : ObsA)].map obsTriple) ∧
    ([(⟨"A", 720, 1, "dzien"⟩ : RowB), ⟨"A", 725, 2, "dzien"⟩].map rowTripleB
      = obsW.map obsTripleB) := by
  constructor
  · exact claim10_row_preservation.1 sunFX locMapX [⟨some "A", 720, 1⟩]
      (by decide)
  · exact claim10_row_preservation.2 sunFX effW obsW
      [⟨"A", 720, 1, "dzien"⟩, ⟨"A", 725, 2, "dzien"⟩]
      [(("A", 0), some (360, 1080))] [("A", 0)] (by decide) rfl
